import Mathlib

set_option linter.unusedVariables false

/-!
Verification development for the read-side core of the backhand SquashFS v4.0
parser. The definitions below are a shallow embedding of `src/squashfs.rs` and
`src/reader.rs`. Code of the repository that is not under `src/` (the deku
record layouts in `dir.rs`, `inode.rs`, `fragment.rs`, and the metadata-block
codec in `metadata.rs`) is modelled from the specification, and each such
definition is marked `Modelled from the spec:` in its doc comment.

Machine integers are modelled as `Nat` (with explicit wrap-arounds where the
source performs wrapping casts), byte streams as `List Nat` of values `< 256`,
and fallible operations return `Except`/`Outcome` values. `Outcome` has
dedicated results for a Rust panic and for non-termination (the latter is
produced when a fuel bound on the recursion depth of the tree walker runs out;
the source walker has no such bound).
-/

namespace Backhand

/-- Little-endian value of a byte list (least significant byte first). -/
def leVal : List Nat → Nat
  | [] => 0
  | b :: bs => b + 256 * leVal bs

/-- Read an `n`-byte little-endian unsigned integer from the front of a byte
stream, returning the value and the remaining bytes. -/
def readLE (n : Nat) (bs : List Nat) : Option (Nat × List Nat) :=
  if n ≤ bs.length then some (leVal (bs.take n), bs.drop n) else none

/-- Read `n` raw bytes from the front of a byte stream. -/
def readBytes (n : Nat) (bs : List Nat) : Option (List Nat × List Nat) :=
  if n ≤ bs.length then some (bs.take n, bs.drop n) else none

/-- Reinterpret a u16 value as a signed 16-bit integer (two's complement),
as the `i16` field of a directory entry is read. -/
def toI16 (v : Nat) : Int :=
  if v < 32768 then (v : Int) else (v : Int) - 65536

theorem readLE_some {n v : Nat} {bs rest : List Nat}
    (h : readLE n bs = some (v, rest)) : rest = bs.drop n ∧ n ≤ bs.length := by
  by_cases hn : n ≤ bs.length
  · simp only [readLE, hn, if_true, Option.some.injEq, Prod.mk.injEq] at h
    exact ⟨h.2.symm, hn⟩
  · simp [readLE, hn] at h

theorem readBytes_some {n : Nat} {bs out rest : List Nat}
    (h : readBytes n bs = some (out, rest)) : rest = bs.drop n ∧ n ≤ bs.length := by
  by_cases hn : n ≤ bs.length
  · simp only [readBytes, hn, if_true, Option.some.injEq, Prod.mk.injEq] at h
    exact ⟨h.2.symm, hn⟩
  · simp [readBytes, hn] at h

/-- Model of `crate::error::SquashfsError` (the error enum is not under `src/`;
the variants here are the ones reachable from the modelled code paths: deku
parse or assertion failures, stream failures, decompressor failures, the
`FileNotFound` variant used by `symlink`/`char_device`/`block_device`, and
UTF-8 conversion failures from `String::from_utf8`). -/
inductive SquashfsError where
  | deku
  | io
  | decompress
  | fileNotFound
  | utf8
deriving DecidableEq, Repr

/-- Result of running a piece of the Rust code: a value, an `Err` propagated to
the caller, a Rust panic, or non-termination (fuel exhaustion of the walker
model; the source code loops in this case). -/
inductive Outcome (α : Type) where
  | ok : α → Outcome α
  | error : SquashfsError → Outcome α
  | panic : Outcome α
  | diverge : Outcome α
deriving DecidableEq, Repr

/-- Sequencing of outcomes: errors, panics and divergence propagate, matching
the `?` operator and panic/non-termination semantics of the source. -/
def Outcome.bind {α β : Type} : Outcome α → (α → Outcome β) → Outcome β
  | .ok a, f => f a
  | .error e, _ => .error e
  | .panic, _ => .panic
  | .diverge, _ => .diverge

theorem Outcome.bind_eq_ok {α β : Type} {x : Outcome α} {f : α → Outcome β} {b : β}
    (h : Outcome.bind x f = .ok b) : ∃ a, x = .ok a ∧ f a = .ok b := by
  cases x with
  | ok a => exact ⟨a, rfl, h⟩
  | error e => exact Outcome.noConfusion h
  | panic => exact Outcome.noConfusion h
  | diverge => exact Outcome.noConfusion h

/-- A directory entry, as in `crate::dir::DirEntry`: the `name` field holds
`name_size + 1` raw bytes (not NUL-terminated). -/
structure DirEntry where
  offset : Nat
  inode_offset : Int
  t : Nat
  name_size : Nat
  name : List Nat
deriving DecidableEq, Repr

/-- A directory header together with its entries, as in `crate::dir::Dir`. -/
structure Dir where
  count : Nat
  start : Nat
  inode_num : Nat
  dir_entries : List DirEntry
deriving DecidableEq, Repr

/-- Modelled from the spec: the directory-entry layout of `dir.rs` (not under
`src/`) is `{offset:u16, inode_offset:i16, type:u16, name_size:u16,
name:u8[name_size+1]}`, all little-endian. -/
def decodeEntry (bs : List Nat) : Option (DirEntry × List Nat) := do
  let (off, bs1) ← readLE 2 bs
  let (ioff, bs2) ← readLE 2 bs1
  let (t, bs3) ← readLE 2 bs2
  let (nsize, bs4) ← readLE 2 bs3
  let (name, bs5) ← readBytes (nsize + 1) bs4
  some (⟨off, toI16 ioff, t, nsize, name⟩, bs5)

/-- Decode `n` consecutive directory entries. -/
def decodeEntries : Nat → List Nat → Option (List DirEntry × List Nat)
  | 0, bs => some ([], bs)
  | n + 1, bs => do
    let (e, bs1) ← decodeEntry bs
    let (es, bs2) ← decodeEntries n bs1
    some (e :: es, bs2)

/-- Modelled from the spec: the directory-header layout of `dir.rs` (not under
`src/`) is `{count:u32, start:u32, inode_number:u32}` followed by `count + 1`
entries; this is `Dir::from_bytes`. -/
def decodeDir (bs : List Nat) : Option (Dir × List Nat) := do
  let (count, bs1) ← readLE 4 bs
  let (start, bs2) ← readLE 4 bs1
  let (inum, bs3) ← readLE 4 bs2
  let (es, bs4) ← decodeEntries (count + 1) bs3
  some (⟨count, start, inum, es⟩, bs4)

theorem decodeEntry_length {bs rest : List Nat} {e : DirEntry}
    (h : decodeEntry bs = some (e, rest)) : rest.length < bs.length := by
  unfold decodeEntry at h
  obtain ⟨⟨off, bs1⟩, h1, h⟩ := Option.bind_eq_some.mp h
  obtain ⟨⟨ioff, bs2⟩, h2, h⟩ := Option.bind_eq_some.mp h
  obtain ⟨⟨t, bs3⟩, h3, h⟩ := Option.bind_eq_some.mp h
  obtain ⟨⟨nsize, bs4⟩, h4, h⟩ := Option.bind_eq_some.mp h
  obtain ⟨⟨name, bs5⟩, h5, h⟩ := Option.bind_eq_some.mp h
  obtain ⟨r1, l1⟩ := readLE_some h1
  obtain ⟨r2, l2⟩ := readLE_some h2
  obtain ⟨r3, l3⟩ := readLE_some h3
  obtain ⟨r4, l4⟩ := readLE_some h4
  obtain ⟨r5, l5⟩ := readBytes_some h5
  simp only [Option.some.injEq, Prod.mk.injEq] at h
  subst r1 r2 r3 r4 r5
  rw [← h.2]
  simp only [List.length_drop] at *
  omega

theorem decodeEntries_length {n : Nat} :
    ∀ {bs rest : List Nat} {es : List DirEntry},
      decodeEntries n bs = some (es, rest) → rest.length ≤ bs.length := by
  induction n with
  | zero =>
    intro bs rest es h
    simp only [decodeEntries, Option.some.injEq, Prod.mk.injEq] at h
    rw [← h.2]
  | succ n ih =>
    intro bs rest es h
    unfold decodeEntries at h
    obtain ⟨⟨e, bs1⟩, h1, h⟩ := Option.bind_eq_some.mp h
    obtain ⟨⟨es2, bs2⟩, h2, h⟩ := Option.bind_eq_some.mp h
    simp only [Option.some.injEq, Prod.mk.injEq] at h
    have := decodeEntry_length h1
    have := ih h2
    rw [← h.2]
    omega

theorem decodeDir_length {bs rest : List Nat} {d : Dir}
    (h : decodeDir bs = some (d, rest)) : rest.length < bs.length := by
  unfold decodeDir at h
  obtain ⟨⟨count, bs1⟩, h1, h⟩ := Option.bind_eq_some.mp h
  obtain ⟨⟨start, bs2⟩, h2, h⟩ := Option.bind_eq_some.mp h
  obtain ⟨⟨inum, bs3⟩, h3, h⟩ := Option.bind_eq_some.mp h
  obtain ⟨⟨es, bs4⟩, h4, h⟩ := Option.bind_eq_some.mp h
  obtain ⟨r1, l1⟩ := readLE_some h1
  obtain ⟨r2, l2⟩ := readLE_some h2
  obtain ⟨r3, l3⟩ := readLE_some h3
  have l4 := decodeEntries_length h4
  have h' : ((⟨count, start, inum, es⟩ : Dir), bs4) = (d, rest) := Option.some.inj h
  have hr : bs4 = rest := congrArg Prod.snd h'
  subst r1 r2 r3 hr
  simp only [List.length_drop] at *
  omega

/-- The `while !bytes.is_empty() { Dir::from_bytes ... }` loop shared by
`Squashfs::all_dirs` and `Squashfs::dir_from_index`: decode directory records
until the buffer is exhausted, propagating a deku failure as an error. -/
def decodeDirs (bs : List Nat) : Except SquashfsError (List Dir) :=
  if bs.isEmpty then .ok []
  else
    match h : decodeDir bs with
    | none => .error .deku
    | some (d, rest) =>
      match decodeDirs rest with
      | .ok ds => .ok (d :: ds)
      | .error e => .error e
termination_by bs.length
decreasing_by exact decodeDir_length h

theorem decodeDirs_nil : decodeDirs [] = .ok [] := by
  rw [decodeDirs.eq_def]
  rfl

theorem decodeDirs_cons {bs rest : List Nat} {d : Dir}
    (hne : bs.isEmpty = false) (h : decodeDir bs = some (d, rest)) :
    decodeDirs bs =
      match decodeDirs rest with
      | .ok ds => .ok (d :: ds)
      | .error e => .error e := by
  rw [decodeDirs.eq_def, hne]
  simp only [Bool.false_eq_true, if_false]
  split
  · rename_i heq
    rw [heq] at h
    exact Option.noConfusion h
  · rename_i d' rest' heq
    rw [heq] at h
    have h' := Option.some.inj h
    have hd : d' = d := congrArg Prod.fst h'
    have hr : rest' = rest := congrArg Prod.snd h'
    rw [hd, hr]

/-- Models `(x as f32 / d as f32).ceil() as u64` as used by the source for
block-count arithmetic. The source computes this in `f32`; for every argument
pair arising in this development (`x < 2^24` and `d` a power of two) the `f32`
computation is exact and agrees with this ceiling division. -/
def ceilDivF32 (x d : Nat) : Nat := (x + d - 1) / d

/-- The compressor tag of the superblock, `crate::compressor::Compressor`
(values from the spec table: None=0, Gzip=1, Lzma=2, Lzo=3, Xz=4, Lz4=5,
Zstd=6). -/
inductive Compressor where
  | none
  | gzip
  | lzma
  | lzo
  | xz
  | lz4
  | zstd
deriving DecidableEq, Repr

/-- Reading the u16 compressor tag, as the deku enum in `compressor.rs` (not
under `src/`) does: an unknown tag is a deku parse failure. -/
def Compressor.fromTag : Nat → Option Compressor
  | 0 => some .none
  | 1 => some .gzip
  | 2 => some .lzma
  | 3 => some .lzo
  | 4 => some .xz
  | 5 => some .lz4
  | 6 => some .zstd
  | _ => Option.none

/-- The superblock record of `squashfs.rs`, with the fields in their on-disk
order. -/
structure SuperBlock where
  magic : List Nat
  inode_count : Nat
  mod_time : Nat
  block_size : Nat
  frag_count : Nat
  compressor : Compressor
  block_log : Nat
  flags : Nat
  id_count : Nat
  version_major : Nat
  version_minor : Nat
  root_inode : Nat
  bytes_used : Nat
  id_table : Nat
  xattr_table : Nat
  inode_table : Nat
  dir_table : Nat
  frag_table : Nat
  export_table : Nat
deriving DecidableEq, Repr

/-- Lift a deku field read into the parse monad: a failed read or assertion is
a deku error wrapped into `SquashfsError`. -/
def deku {α : Type} (o : Option α) : Except SquashfsError α :=
  match o with
  | some a => .ok a
  | Option.none => .error .deku

/-- `SuperBlock::from_bytes` as derived by deku on the struct in `squashfs.rs`:
the fields are read sequentially in little-endian. The only validations are the
`assert_eq` attributes on `magic` (must be `b"hsqs"`), `version_major` (must be
4) and `version_minor` (must be 0), plus the enum check on the compressor tag;
no other field — in particular neither `block_size` nor `block_log` — is
checked. Trailing input, as in the 96-byte buffer read by
`Squashfs::inner_from_reader`, is ignored. -/
def superBlockFromBytes (bs : List Nat) : Except SquashfsError SuperBlock := do
  let (magic, bs) ← deku (readBytes 4 bs)
  if magic ≠ [104, 115, 113, 115] then throw .deku
  let (inode_count, bs) ← deku (readLE 4 bs)
  let (mod_time, bs) ← deku (readLE 4 bs)
  let (block_size, bs) ← deku (readLE 4 bs)
  let (frag_count, bs) ← deku (readLE 4 bs)
  let (ctag, bs) ← deku (readLE 2 bs)
  let compressor ← deku (Compressor.fromTag ctag)
  let (block_log, bs) ← deku (readLE 2 bs)
  let (flags, bs) ← deku (readLE 2 bs)
  let (id_count, bs) ← deku (readLE 2 bs)
  let (version_major, bs) ← deku (readLE 2 bs)
  if version_major ≠ 4 then throw .deku
  let (version_minor, bs) ← deku (readLE 2 bs)
  if version_minor ≠ 0 then throw .deku
  let (root_inode, bs) ← deku (readLE 8 bs)
  let (bytes_used, bs) ← deku (readLE 8 bs)
  let (id_table, bs) ← deku (readLE 8 bs)
  let (xattr_table, bs) ← deku (readLE 8 bs)
  let (inode_table, bs) ← deku (readLE 8 bs)
  let (dir_table, bs) ← deku (readLE 8 bs)
  let (frag_table, bs) ← deku (readLE 8 bs)
  let (export_table, _) ← deku (readLE 8 bs)
  return { magic, inode_count, mod_time, block_size, frag_count, compressor,
           block_log, flags, id_count, version_major, version_minor, root_inode,
           bytes_used, id_table, xattr_table, inode_table, dir_table, frag_table,
           export_table }

/-- `SuperBlock::nfs_export_table_exists`: flag bit 7
(`Flags::NFSExportTableExists = 0b1000_0000`). -/
def SuperBlock.nfs_export_table_exists (sb : SuperBlock) : Bool :=
  sb.flags &&& 128 != 0

/-- Modelled from the spec: a superblock satisfies the block-size invariants of
§3 when `block_log = log2 block_size` and `block_size` is a power of two in
`[4096, 1048576]`; equivalently `block_size = 2 ^ block_log` within range. -/
def spec_block_size_valid (sb : SuperBlock) : Bool :=
  (sb.block_size == 2 ^ sb.block_log)
    && decide (4096 ≤ sb.block_size) && decide (sb.block_size ≤ 1048576)

/-- The common inode header, `crate::inode::InodeHeader` (spec §3): the type
tag is the discriminant of `InodeInner` and not repeated here. -/
structure InodeHeader where
  permissions : Nat
  uid : Nat
  gid : Nat
  mod_time : Nat
  inode_number : Nat
deriving DecidableEq, Repr

/-- Basic-directory inode body (spec §3): `{block_index, file_size,
block_offset, parent_inode}`; `file_size` is a u16, `block_index` a u32. -/
structure BasicDirectory where
  block_index : Nat
  file_size : Nat
  block_offset : Nat
  parent_inode : Nat
deriving DecidableEq, Repr

/-- Extended-directory inode body; `file_size` is a u32. -/
structure ExtendedDirectory where
  block_index : Nat
  file_size : Nat
  block_offset : Nat
  parent_inode : Nat
deriving DecidableEq, Repr

/-- Basic-file inode body (spec §3): `{blocks_start, fragment_ref,
block_offset_in_fragment, file_size, block_sizes}`. -/
structure BasicFile where
  blocks_start : Nat
  fragment_ref : Nat
  block_offset : Nat
  file_size : Nat
  block_sizes : List Nat
deriving DecidableEq, Repr

/-- Extended-file inode body (spec §3: the extended variant additionally
carries the sparse size). -/
structure ExtendedFile where
  blocks_start : Nat
  file_size : Nat
  sparse : Nat
  fragment_ref : Nat
  block_offset : Nat
  block_sizes : List Nat
deriving DecidableEq, Repr

/-- The `From<&ExtendedFile> for BasicFile` conversion used by the walker's
file branch. -/
def ExtendedFile.toBasic (f : ExtendedFile) : BasicFile :=
  ⟨f.blocks_start, f.fragment_ref, f.block_offset, f.file_size, f.block_sizes⟩

/-- Basic-symlink inode body: the target path as raw bytes. -/
structure BasicSymlink where
  target_size : Nat
  target_path : List Nat
deriving DecidableEq, Repr

/-- Basic block-device inode body. -/
structure BasicBlockDevice where
  device_number : Nat
deriving DecidableEq, Repr

/-- Basic character-device inode body. -/
structure BasicCharacterDevice where
  device_number : Nat
deriving DecidableEq, Repr

/-- The discriminated inode body, `crate::inode::InodeInner`. The on-disk type
ids (spec §3) are 1 BasicDirectory, 2 BasicFile, 3 BasicSymlink,
4 BasicBlockDevice, 5 BasicCharacterDevice, 6 Fifo, 7 Socket,
8 ExtendedDirectory, 9 ExtendedFile. -/
inductive InodeInner where
  | basicDirectory : BasicDirectory → InodeInner
  | basicFile : BasicFile → InodeInner
  | basicSymlink : BasicSymlink → InodeInner
  | basicBlockDevice : BasicBlockDevice → InodeInner
  | basicCharacterDevice : BasicCharacterDevice → InodeInner
  | basicFifo : InodeInner
  | basicSocket : InodeInner
  | extendedDirectory : ExtendedDirectory → InodeInner
  | extendedFile : ExtendedFile → InodeInner
deriving DecidableEq, Repr

/-- An inode: shared header plus typed body, `crate::inode::Inode`. -/
structure Inode where
  header : InodeHeader
  inner : InodeInner
deriving DecidableEq, Repr

/-- Read `n` consecutive u32 values (the `block_sizes` list of a file
inode). -/
def readU32List : Nat → List Nat → Option (List Nat × List Nat)
  | 0, bs => some ([], bs)
  | n + 1, bs => do
    let (v, bs1) ← readLE 4 bs
    let (vs, bs2) ← readU32List n bs1
    some (v :: vs, bs2)

/-- Modelled from the spec: the type-specific inode bodies of `inode.rs` (not
under `src/`), by on-disk type id. A file inode's `block_sizes` has
`⌈file_size / block_size⌉` entries when no fragment is used
(`fragment_ref = 0xFFFFFFFF`) and `⌊file_size / block_size⌋` otherwise
(spec §3); this is why `Inode::read` receives the block size as context. A
type tag with no known layout is a deku parse failure. -/
def decodeInodeBody (block_size t : Nat) (bs : List Nat) : Option (InodeInner × List Nat) :=
  if t = 1 then do
    let (block_index, bs1) ← readLE 4 bs
    let (file_size, bs2) ← readLE 2 bs1
    let (block_offset, bs3) ← readLE 2 bs2
    let (parent_inode, bs4) ← readLE 4 bs3
    some (.basicDirectory ⟨block_index, file_size, block_offset, parent_inode⟩, bs4)
  else if t = 2 then do
    let (blocks_start, bs1) ← readLE 4 bs
    let (fragment_ref, bs2) ← readLE 4 bs1
    let (block_offset, bs3) ← readLE 4 bs2
    let (file_size, bs4) ← readLE 4 bs3
    let bcount := if fragment_ref = 4294967295
      then (file_size + block_size - 1) / block_size else file_size / block_size
    let (sizes, bs5) ← readU32List bcount bs4
    some (.basicFile ⟨blocks_start, fragment_ref, block_offset, file_size, sizes⟩, bs5)
  else if t = 3 then do
    let (target_size, bs1) ← readLE 4 bs
    let (target_path, bs2) ← readBytes target_size bs1
    some (.basicSymlink ⟨target_size, target_path⟩, bs2)
  else if t = 4 then do
    let (device_number, bs1) ← readLE 4 bs
    some (.basicBlockDevice ⟨device_number⟩, bs1)
  else if t = 5 then do
    let (device_number, bs1) ← readLE 4 bs
    some (.basicCharacterDevice ⟨device_number⟩, bs1)
  else if t = 6 then some (.basicFifo, bs)
  else if t = 7 then some (.basicSocket, bs)
  else if t = 8 then do
    let (block_index, bs1) ← readLE 4 bs
    let (file_size, bs2) ← readLE 4 bs1
    let (block_offset, bs3) ← readLE 2 bs2
    let (parent_inode, bs4) ← readLE 4 bs3
    some (.extendedDirectory ⟨block_index, file_size, block_offset, parent_inode⟩, bs4)
  else if t = 9 then do
    let (blocks_start, bs1) ← readLE 8 bs
    let (file_size, bs2) ← readLE 8 bs1
    let (sparse, bs3) ← readLE 8 bs2
    let (fragment_ref, bs4) ← readLE 4 bs3
    let (block_offset, bs5) ← readLE 4 bs4
    let bcount := if fragment_ref = 4294967295
      then (file_size + block_size - 1) / block_size else file_size / block_size
    let (sizes, bs6) ← readU32List bcount bs5
    some (.extendedFile ⟨blocks_start, file_size, sparse, fragment_ref, block_offset, sizes⟩, bs6)
  else Option.none

/-- `Inode::read`: the common 16-byte little-endian header
`{type:u16, permissions:u16, uid:u16, gid:u16, mod_time:u32, inode_number:u32}`
followed by the type-specific body. The `block_log` context value is carried
but not consumed by the decoder. -/
def decodeInode (block_size block_log : Nat) (bs : List Nat) : Option (Inode × List Nat) := do
  let (t, bs1) ← readLE 2 bs
  let (permissions, bs2) ← readLE 2 bs1
  let (uid, bs3) ← readLE 2 bs2
  let (gid, bs4) ← readLE 2 bs3
  let (mod_time, bs5) ← readLE 4 bs4
  let (inode_number, bs6) ← readLE 4 bs5
  let (inner, rest) ← decodeInodeBody block_size t bs6
  some (⟨⟨permissions, uid, gid, mod_time, inode_number⟩, inner⟩, rest)

theorem readU32List_length {n : Nat} :
    ∀ {bs rest vs : List Nat},
      readU32List n bs = some (vs, rest) → rest.length ≤ bs.length := by
  induction n with
  | zero =>
    intro bs rest vs h
    simp only [readU32List, Option.some.injEq, Prod.mk.injEq] at h
    rw [← h.2]
  | succ n ih =>
    intro bs rest vs h
    unfold readU32List at h
    obtain ⟨⟨v, bs1⟩, h1, h⟩ := Option.bind_eq_some.mp h
    obtain ⟨⟨vs2, bs2⟩, h2, h⟩ := Option.bind_eq_some.mp h
    obtain ⟨r1, l1⟩ := readLE_some h1
    have l2 := ih h2
    have h' : ((v :: vs2 : List Nat), bs2) = (vs, rest) := Option.some.inj h
    have hr : bs2 = rest := congrArg Prod.snd h'
    subst r1 hr
    simp only [List.length_drop] at *
    omega

theorem decodeInodeBody_length {block_size t : Nat} {bs rest : List Nat} {i : InodeInner}
    (h : decodeInodeBody block_size t bs = some (i, rest)) : rest.length ≤ bs.length := by
  unfold decodeInodeBody at h
  by_cases t1 : t = 1
  · rw [if_pos t1] at h
    obtain ⟨⟨a1, bs1⟩, h1, h⟩ := Option.bind_eq_some.mp h
    obtain ⟨⟨a2, bs2⟩, h2, h⟩ := Option.bind_eq_some.mp h
    obtain ⟨⟨a3, bs3⟩, h3, h⟩ := Option.bind_eq_some.mp h
    obtain ⟨⟨a4, bs4⟩, h4, h⟩ := Option.bind_eq_some.mp h
    obtain ⟨r1, l1⟩ := readLE_some h1
    obtain ⟨r2, l2⟩ := readLE_some h2
    obtain ⟨r3, l3⟩ := readLE_some h3
    obtain ⟨r4, l4⟩ := readLE_some h4
    have hr : bs4 = rest := congrArg Prod.snd (Option.some.inj h)
    subst r1 r2 r3 r4 hr
    simp only [List.length_drop] at *
    omega
  rw [if_neg t1] at h
  by_cases t2 : t = 2
  · rw [if_pos t2] at h
    obtain ⟨⟨a1, bs1⟩, h1, h⟩ := Option.bind_eq_some.mp h
    obtain ⟨⟨a2, bs2⟩, h2, h⟩ := Option.bind_eq_some.mp h
    obtain ⟨⟨a3, bs3⟩, h3, h⟩ := Option.bind_eq_some.mp h
    obtain ⟨⟨a4, bs4⟩, h4, h⟩ := Option.bind_eq_some.mp h
    obtain ⟨⟨a5, bs5⟩, h5, h⟩ := Option.bind_eq_some.mp h
    obtain ⟨r1, l1⟩ := readLE_some h1
    obtain ⟨r2, l2⟩ := readLE_some h2
    obtain ⟨r3, l3⟩ := readLE_some h3
    obtain ⟨r4, l4⟩ := readLE_some h4
    have l5 := readU32List_length h5
    have hr : bs5 = rest := congrArg Prod.snd (Option.some.inj h)
    subst r1 r2 r3 r4 hr
    simp only [List.length_drop] at *
    omega
  rw [if_neg t2] at h
  by_cases t3 : t = 3
  · rw [if_pos t3] at h
    obtain ⟨⟨a1, bs1⟩, h1, h⟩ := Option.bind_eq_some.mp h
    obtain ⟨⟨a2, bs2⟩, h2, h⟩ := Option.bind_eq_some.mp h
    obtain ⟨r1, l1⟩ := readLE_some h1
    obtain ⟨r2, l2⟩ := readBytes_some h2
    have hr : bs2 = rest := congrArg Prod.snd (Option.some.inj h)
    subst r1 r2 hr
    simp only [List.length_drop] at *
    omega
  rw [if_neg t3] at h
  by_cases t4 : t = 4
  · rw [if_pos t4] at h
    obtain ⟨⟨a1, bs1⟩, h1, h⟩ := Option.bind_eq_some.mp h
    obtain ⟨r1, l1⟩ := readLE_some h1
    have hr : bs1 = rest := congrArg Prod.snd (Option.some.inj h)
    subst r1 hr
    simp only [List.length_drop] at *
    omega
  rw [if_neg t4] at h
  by_cases t5 : t = 5
  · rw [if_pos t5] at h
    obtain ⟨⟨a1, bs1⟩, h1, h⟩ := Option.bind_eq_some.mp h
    obtain ⟨r1, l1⟩ := readLE_some h1
    have hr : bs1 = rest := congrArg Prod.snd (Option.some.inj h)
    subst r1 hr
    simp only [List.length_drop] at *
    omega
  rw [if_neg t5] at h
  by_cases t6 : t = 6
  · rw [if_pos t6] at h
    have hr : bs = rest := congrArg Prod.snd (Option.some.inj h)
    rw [hr]
  rw [if_neg t6] at h
  by_cases t7 : t = 7
  · rw [if_pos t7] at h
    have hr : bs = rest := congrArg Prod.snd (Option.some.inj h)
    rw [hr]
  rw [if_neg t7] at h
  by_cases t8 : t = 8
  · rw [if_pos t8] at h
    obtain ⟨⟨a1, bs1⟩, h1, h⟩ := Option.bind_eq_some.mp h
    obtain ⟨⟨a2, bs2⟩, h2, h⟩ := Option.bind_eq_some.mp h
    obtain ⟨⟨a3, bs3⟩, h3, h⟩ := Option.bind_eq_some.mp h
    obtain ⟨⟨a4, bs4⟩, h4, h⟩ := Option.bind_eq_some.mp h
    obtain ⟨r1, l1⟩ := readLE_some h1
    obtain ⟨r2, l2⟩ := readLE_some h2
    obtain ⟨r3, l3⟩ := readLE_some h3
    obtain ⟨r4, l4⟩ := readLE_some h4
    have hr : bs4 = rest := congrArg Prod.snd (Option.some.inj h)
    subst r1 r2 r3 r4 hr
    simp only [List.length_drop] at *
    omega
  rw [if_neg t8] at h
  by_cases t9 : t = 9
  · rw [if_pos t9] at h
    obtain ⟨⟨a1, bs1⟩, h1, h⟩ := Option.bind_eq_some.mp h
    obtain ⟨⟨a2, bs2⟩, h2, h⟩ := Option.bind_eq_some.mp h
    obtain ⟨⟨a3, bs3⟩, h3, h⟩ := Option.bind_eq_some.mp h
    obtain ⟨⟨a4, bs4⟩, h4, h⟩ := Option.bind_eq_some.mp h
    obtain ⟨⟨a5, bs5⟩, h5, h⟩ := Option.bind_eq_some.mp h
    obtain ⟨⟨a6, bs6⟩, h6, h⟩ := Option.bind_eq_some.mp h
    obtain ⟨r1, l1⟩ := readLE_some h1
    obtain ⟨r2, l2⟩ := readLE_some h2
    obtain ⟨r3, l3⟩ := readLE_some h3
    obtain ⟨r4, l4⟩ := readLE_some h4
    obtain ⟨r5, l5⟩ := readLE_some h5
    have l6 := readU32List_length h6
    have hr : bs6 = rest := congrArg Prod.snd (Option.some.inj h)
    subst r1 r2 r3 r4 r5 hr
    simp only [List.length_drop] at *
    omega
  rw [if_neg t9] at h
  exact Option.noConfusion h

theorem decodeInode_length {block_size block_log : Nat} {bs rest : List Nat} {i : Inode}
    (h : decodeInode block_size block_log bs = some (i, rest)) : rest.length < bs.length := by
  unfold decodeInode at h
  obtain ⟨⟨t, bs1⟩, h1, h⟩ := Option.bind_eq_some.mp h
  obtain ⟨⟨a2, bs2⟩, h2, h⟩ := Option.bind_eq_some.mp h
  obtain ⟨⟨a3, bs3⟩, h3, h⟩ := Option.bind_eq_some.mp h
  obtain ⟨⟨a4, bs4⟩, h4, h⟩ := Option.bind_eq_some.mp h
  obtain ⟨⟨a5, bs5⟩, h5, h⟩ := Option.bind_eq_some.mp h
  obtain ⟨⟨a6, bs6⟩, h6, h⟩ := Option.bind_eq_some.mp h
  obtain ⟨⟨inner, rest'⟩, h7, h⟩ := Option.bind_eq_some.mp h
  obtain ⟨r1, l1⟩ := readLE_some h1
  obtain ⟨r2, l2⟩ := readLE_some h2
  obtain ⟨r3, l3⟩ := readLE_some h3
  obtain ⟨r4, l4⟩ := readLE_some h4
  obtain ⟨r5, l5⟩ := readLE_some h5
  obtain ⟨r6, l6⟩ := readLE_some h6
  have l7 := decodeInodeBody_length h7
  have hr : rest' = rest := congrArg Prod.snd (Option.some.inj h)
  subst r1 r2 r3 r4 r5 r6 hr
  simp only [List.length_drop] at *
  omega

/-- The decode loop of `SquashfsReader::inodes` (`reader.rs` lines 95-110):
while the buffer is non-empty, try `Inode::read`; on success push the inode and
continue with the rest; on failure log and `break`, returning the inodes
decoded so far (the source comments `TODO: this should return an error`). -/
def inode_parse_loop (block_size block_log : Nat) (bs : List Nat) : List Inode :=
  if bs.isEmpty then []
  else
    match h : decodeInode block_size block_log bs with
    | some (i, rest) => i :: inode_parse_loop block_size block_log rest
    | none => []
termination_by bs.length
decreasing_by exact decodeInode_length h

theorem inode_parse_loop_nil {block_size block_log : Nat} :
    inode_parse_loop block_size block_log [] = [] := by
  rw [inode_parse_loop.eq_def]
  rfl

theorem inode_parse_loop_cons {block_size block_log : Nat} {bs rest : List Nat} {i : Inode}
    (hne : bs.isEmpty = false) (h : decodeInode block_size block_log bs = some (i, rest)) :
    inode_parse_loop block_size block_log bs =
      i :: inode_parse_loop block_size block_log rest := by
  rw [inode_parse_loop.eq_def, hne]
  simp only [Bool.false_eq_true, if_false]
  split
  · rename_i i' rest' heq
    rw [heq] at h
    have h' := Option.some.inj h
    have hi : i' = i := congrArg Prod.fst h'
    have hr : rest' = rest := congrArg Prod.snd h'
    rw [hi, hr]
  · rename_i heq
    rw [heq] at h
    exact Option.noConfusion h

theorem inode_parse_loop_stop {block_size block_log : Nat} {bs : List Nat}
    (h : decodeInode block_size block_log bs = none) :
    inode_parse_loop block_size block_log bs = [] := by
  rw [inode_parse_loop.eq_def]
  split_ifs
  · rfl
  · split
    · rename_i heq
      rw [heq] at h
      exact Option.noConfusion h
    · rfl

/-- An operation performed by the reader on its underlying stream: a seek to an
absolute stream offset, or a read of a number of bytes. The log of these
events instruments the model so that theorems can speak about which stream
accesses a code path performs; it has no counterpart in the source state. -/
inductive ReaderEvent where
  | seek : Nat → ReaderEvent
  | read : Nat → ReaderEvent
deriving DecidableEq, Repr

/-- The state of `crate::reader::SquashfsReader`: the underlying stream bytes
`io`, the image offset `start`, the stream's current position `pos` (implicit
in the Rust `Seek` object), and the instrumentation log `events`. -/
structure SquashfsReader where
  io : List Nat
  start : Nat
  pos : Nat
  events : List ReaderEvent
deriving DecidableEq, Repr

/-- `SquashfsReader::stream_position`: current stream position minus
`start`. -/
def SquashfsReader.stream_position (r : SquashfsReader) : Nat := r.pos - r.start

/-- `SquashfsReader::seek_from_start`: seek the stream to `start + seek`
(seeking beyond the end of the stream is not itself an error). -/
def SquashfsReader.seek_from_start (r : SquashfsReader) (seek : Nat) : SquashfsReader :=
  { r with pos := r.start + seek, events := r.events ++ [.seek (r.start + seek)] }

/-- `read_exact` on the underlying stream: fill a buffer of `n` bytes from the
current position or fail with an I/O error. -/
def SquashfsReader.read_exact (r : SquashfsReader) (n : Nat) :
    Outcome (List Nat × SquashfsReader) :=
  if r.pos + n ≤ r.io.length then
    .ok ((r.io.drop r.pos).take n,
      { r with pos := r.pos + n, events := r.events ++ [.read n] })
  else .error .io

theorem read_exact_ok {r r' : SquashfsReader} {n : Nat} {out : List Nat}
    (h : r.read_exact n = .ok (out, r')) :
    r'.pos = r.pos + n ∧ r'.start = r.start ∧ r'.io = r.io := by
  unfold SquashfsReader.read_exact at h
  by_cases hc : r.pos + n ≤ r.io.length
  · rw [if_pos hc] at h
    have hr : ({ r with pos := r.pos + n, events := r.events ++ [.read n] }
        : SquashfsReader) = r' := congrArg Prod.snd (Outcome.ok.inj h)
    rw [← hr]
    exact ⟨rfl, rfl, rfl⟩
  · rw [if_neg hc] at h
    exact Outcome.noConfusion h

/-- Modelled from the spec: `metadata::read_block` (`metadata.rs` is not under
`src/`; §4.2): read a u16 little-endian header, take the low 15 bits as the
payload length, read that many bytes, and if bit 15 is clear run the payload
through the external decompressor (passed in as `decomp`, with a codec failure
as a decompression error); if bit 15 is set the payload is returned as-is. -/
def read_block (decomp : Compressor → List Nat → Option (List Nat)) (sb : SuperBlock)
    (r : SquashfsReader) : Outcome (List Nat × SquashfsReader) :=
  (r.read_exact 2).bind fun (hb, r1) =>
    (r1.read_exact (leVal hb &&& 32767)).bind fun (payload, r2) =>
      if leVal hb &&& 32768 = 0 then
        match decomp sb.compressor payload with
        | some out => .ok (out, r2)
        | Option.none => .error .decompress
      else .ok (payload, r2)

theorem read_block_pos {decomp : Compressor → List Nat → Option (List Nat)}
    {sb : SuperBlock} {r r' : SquashfsReader} {out : List Nat}
    (h : read_block decomp sb r = .ok (out, r')) :
    r.pos + 2 ≤ r'.pos ∧ r'.start = r.start := by
  unfold read_block at h
  obtain ⟨⟨hb, r1⟩, h1, h⟩ := Outcome.bind_eq_ok h
  obtain ⟨⟨payload, r2⟩, h2, h⟩ := Outcome.bind_eq_ok h
  obtain ⟨p1, s1, io1⟩ := read_exact_ok h1
  obtain ⟨p2, s2, io2⟩ := read_exact_ok h2
  have h3 : (if leVal hb &&& 32768 = 0 then
      match decomp sb.compressor payload with
      | some o => Outcome.ok (o, r2)
      | Option.none => Outcome.error SquashfsError.decompress
      else Outcome.ok (payload, r2)) = Outcome.ok (out, r') := h
  by_cases hcomp : leVal hb &&& 32768 = 0
  · rw [if_pos hcomp] at h3
    cases hd : decomp sb.compressor payload with
    | some outb =>
      rw [hd] at h3
      have hr : r2 = r' := congrArg Prod.snd (Outcome.ok.inj h3)
      rw [← hr]
      omega
    | none =>
      rw [hd] at h3
      exact Outcome.noConfusion h3
  · rw [if_neg hcomp] at h3
    have hr : r2 = r' := congrArg Prod.snd (Outcome.ok.inj h3)
    rw [← hr]
    omega

/-- The `for _ in 0..count` loop of `SquashfsReader::metadata_with_count`:
read `count` metadata blocks and concatenate their decompressed payloads. -/
def read_blocks (decomp : Compressor → List Nat → Option (List Nat)) (sb : SuperBlock) :
    Nat → SquashfsReader → Outcome (List Nat × SquashfsReader)
  | 0, r => .ok ([], r)
  | n + 1, r =>
    (read_block decomp sb r).bind fun (bytes, r1) =>
      (read_blocks decomp sb n r1).bind fun (rest, r2) => .ok (bytes ++ rest, r2)

/-- The `while let Ok(...) = T::from_bytes` loop of
`SquashfsReader::metadata_with_count`: decode entries until the first failure,
silently dropping any trailing bytes; a decode failure is not an error. The
`hT` argument records that the entry decoder always consumes input, which is
what makes the source loop terminate. -/
def decodeMany {T : Type} (decodeT : List Nat → Option (T × List Nat))
    (hT : ∀ bs t rest, decodeT bs = some (t, rest) → rest.length < bs.length)
    (bs : List Nat) : List T :=
  match h : decodeT bs with
  | some (t, rest) => t :: decodeMany decodeT hT rest
  | none => []
termination_by bs.length
decreasing_by exact hT _ _ _ h

theorem decodeMany_step {T : Type} {decodeT : List Nat → Option (T × List Nat)}
    {hT : ∀ bs t rest, decodeT bs = some (t, rest) → rest.length < bs.length}
    {bs rest : List Nat} {t : T} (h : decodeT bs = some (t, rest)) :
    decodeMany decodeT hT bs = t :: decodeMany decodeT hT rest := by
  rw [decodeMany.eq_def]
  split
  · rename_i t' rest' heq
    rw [heq] at h
    have h' := Option.some.inj h
    have ht : t' = t := congrArg Prod.fst h'
    have hr : rest' = rest := congrArg Prod.snd h'
    rw [ht, hr]
  · rename_i heq
    rw [heq] at h
    exact Option.noConfusion h

theorem decodeMany_stop {T : Type} {decodeT : List Nat → Option (T × List Nat)}
    {hT : ∀ bs t rest, decodeT bs = some (t, rest) → rest.length < bs.length}
    {bs : List Nat} (h : decodeT bs = none) : decodeMany decodeT hT bs = [] := by
  rw [decodeMany.eq_def]
  split
  · rename_i t' rest' heq
    rw [heq] at h
    exact Option.noConfusion h
  · rfl

/-- `crate::squashfs::Export`: a u64 inode reference (NFS export support). -/
structure Export where
  val : Nat
deriving DecidableEq, Repr

/-- `crate::squashfs::Id`: a 32-bit user or group id. -/
structure Id where
  val : Nat
deriving DecidableEq, Repr

/-- Modelled from the spec: `crate::fragment::Fragment` (`fragment.rs` is not
under `src/`): `{start:u64, size:u32, unused:u32}`, 16 bytes on disk
(`FRAGMENT_SIZE`). -/
structure Fragment where
  start : Nat
  size : Nat
  unused : Nat
deriving DecidableEq, Repr

/-- `Export::from_bytes`: a single little-endian u64. -/
def decodeExport (bs : List Nat) : Option (Export × List Nat) :=
  match readLE 8 bs with
  | some (v, rest) => some (⟨v⟩, rest)
  | Option.none => Option.none

/-- `Id::from_bytes`: a single little-endian u32. -/
def decodeId (bs : List Nat) : Option (Id × List Nat) :=
  match readLE 4 bs with
  | some (v, rest) => some (⟨v⟩, rest)
  | Option.none => Option.none

/-- Modelled from the spec: `Fragment::from_bytes`, 16 bytes
`{start:u64, size:u32, unused:u32}` little-endian. -/
def decodeFragment (bs : List Nat) : Option (Fragment × List Nat) := do
  let (start, bs1) ← readLE 8 bs
  let (size, bs2) ← readLE 4 bs1
  let (unused, bs3) ← readLE 4 bs2
  some (⟨start, size, unused⟩, bs3)

theorem decodeExport_length :
    ∀ (bs : List Nat) (t : Export) (rest : List Nat),
      decodeExport bs = some (t, rest) → rest.length < bs.length := by
  intro bs t rest h
  unfold decodeExport at h
  cases hv : readLE 8 bs with
  | some vr =>
    obtain ⟨v, rr⟩ := vr
    rw [hv] at h
    obtain ⟨hdrop, hlen⟩ := readLE_some hv
    have hrr : rr = rest := congrArg Prod.snd (Option.some.inj h)
    rw [← hrr, hdrop]
    simp only [List.length_drop]
    omega
  | none =>
    rw [hv] at h
    exact Option.noConfusion h

theorem decodeId_length :
    ∀ (bs : List Nat) (t : Id) (rest : List Nat),
      decodeId bs = some (t, rest) → rest.length < bs.length := by
  intro bs t rest h
  unfold decodeId at h
  cases hv : readLE 4 bs with
  | some vr =>
    obtain ⟨v, rr⟩ := vr
    rw [hv] at h
    obtain ⟨hdrop, hlen⟩ := readLE_some hv
    have hrr : rr = rest := congrArg Prod.snd (Option.some.inj h)
    rw [← hrr, hdrop]
    simp only [List.length_drop]
    omega
  | none =>
    rw [hv] at h
    exact Option.noConfusion h

theorem decodeFragment_length :
    ∀ (bs : List Nat) (t : Fragment) (rest : List Nat),
      decodeFragment bs = some (t, rest) → rest.length < bs.length := by
  intro bs t rest h
  unfold decodeFragment at h
  obtain ⟨⟨a1, bs1⟩, h1, h⟩ := Option.bind_eq_some.mp h
  obtain ⟨⟨a2, bs2⟩, h2, h⟩ := Option.bind_eq_some.mp h
  obtain ⟨⟨a3, bs3⟩, h3, h⟩ := Option.bind_eq_some.mp h
  obtain ⟨r1, l1⟩ := readLE_some h1
  obtain ⟨r2, l2⟩ := readLE_some h2
  obtain ⟨r3, l3⟩ := readLE_some h3
  have hr : bs3 = rest := congrArg Prod.snd (Option.some.inj h)
  subst r1 r2 r3 hr
  simp only [List.length_drop] at *
  omega

/-- The block count computed inside `SquashfsReader::lookup_table`:
`(size as f32 / 8192_f32).ceil() as u64`, i.e. the number of metadata blocks
read from the indirection target for a table of `size` bytes. -/
def lookup_block_count (size : Nat) : Nat := ceilDivF32 size 8192

/-- Modelled from the spec: §4.6 step 3, the number of indirection pointers of
a lookup table is `⌈(count × entry_width) / 8192⌉` where the byte size of the
table is the entry count times the fixed entry width. -/
def spec_lookup_block_count (count entry_width : Nat) : Nat :=
  (count * entry_width + 8191) / 8192

/-- Modelled from the spec: §4.6 step 2, the parser positioned at the table
pointer is to read a single u64 little-endian indirection pointer (8 bytes). -/
def spec_indirection_ptr (bs : List Nat) : Option (Nat × List Nat) := readLE 8 bs

/-- `SquashfsReader::metadata_with_count`: seek to `seek`, read `count`
metadata blocks, concatenate, and decode entries until the first failure. -/
def SquashfsReader.metadata_with_count {T : Type}
    (decomp : Compressor → List Nat → Option (List Nat))
    (decodeT : List Nat → Option (T × List Nat))
    (hT : ∀ bs t rest, decodeT bs = some (t, rest) → rest.length < bs.length)
    (sb : SuperBlock) (seek count : Nat) (r : SquashfsReader) :
    Outcome (List T × SquashfsReader) :=
  (read_blocks decomp sb count (r.seek_from_start seek)).bind fun (all_bytes, r1) =>
    .ok (decodeMany decodeT hT all_bytes, r1)

/-- `SquashfsReader::lookup_table` (`reader.rs` lines 241-260): seek to the
table pointer, read FOUR bytes and decode them as a little-endian u32
indirection pointer (`let mut buf = [0u8; 4]; ... u32::from_le_bytes`),
compute the block count from `size`, and read the metadata blocks at the
(u32-truncated) target. -/
def SquashfsReader.lookup_table {T : Type}
    (decomp : Compressor → List Nat → Option (List Nat))
    (decodeT : List Nat → Option (T × List Nat))
    (hT : ∀ bs t rest, decodeT bs = some (t, rest) → rest.length < bs.length)
    (sb : SuperBlock) (seek size : Nat) (r : SquashfsReader) :
    Outcome (List T × SquashfsReader) :=
  ((r.seek_from_start seek).read_exact 4).bind fun (buf, r1) =>
    SquashfsReader.metadata_with_count decomp decodeT hT sb (leVal buf)
      (lookup_block_count size) r1

/-- `SquashfsReader::fragments`: `None` immediately when `frag_count == 0`,
otherwise the lookup table at `frag_table` with byte size
`frag_count * FRAGMENT_SIZE` (16-byte entries). -/
def SquashfsReader.fragments (decomp : Compressor → List Nat → Option (List Nat))
    (sb : SuperBlock) (r : SquashfsReader) :
    Outcome (Option (List Fragment) × SquashfsReader) :=
  if sb.frag_count = 0 then .ok (Option.none, r)
  else
    (SquashfsReader.lookup_table decomp decodeFragment decodeFragment_length sb
        sb.frag_table (sb.frag_count * 16) r).bind fun (fragment, r1) =>
      .ok (some fragment, r1)

/-- The `size` argument `SquashfsReader::export` hands to `lookup_table`:
`(inode_count as f32 / 1024_f32).ceil() as u64`. -/
def export_lookup_size (sb : SuperBlock) : Nat := ceilDivF32 sb.inode_count 1024

/-- `SquashfsReader::export`: gated on the NFS-export flag; passes
`export_lookup_size` (already a block-style count, not a byte size) to
`lookup_table`. -/
def SquashfsReader.export (decomp : Compressor → List Nat → Option (List Nat))
    (sb : SuperBlock) (r : SquashfsReader) :
    Outcome (Option (List Export) × SquashfsReader) :=
  if sb.nfs_export_table_exists then
    (SquashfsReader.lookup_table decomp decodeExport decodeExport_length sb
        sb.export_table (export_lookup_size sb) r).bind fun (res, r1) =>
      .ok (some res, r1)
  else .ok (Option.none, r)

/-- `SquashfsReader::id` (`reader.rs` lines 228-237): the id lookup table is
read only when `superblock.nfs_export_table_exists()` — flag bit 7 — is set;
`id_count` is not consulted for the gate (and is passed as the `size`). -/
def SquashfsReader.id (decomp : Compressor → List Nat → Option (List Nat))
    (sb : SuperBlock) (r : SquashfsReader) :
    Outcome (Option (List Id) × SquashfsReader) :=
  if sb.nfs_export_table_exists then
    (SquashfsReader.lookup_table decomp decodeId decodeId_length sb
        sb.id_table sb.id_count r).bind fun (res, r1) =>
      .ok (some res, r1)
  else .ok (Option.none, r)

/-- The `while self.stream_position()? < superblock.dir_table` loop of
`SquashfsReader::inodes`: read metadata blocks and concatenate their payloads
until the stream reaches the directory table. (The `metadata_offsets` the
source also records are unused by the function's result and omitted.) -/
def SquashfsReader.inode_blocks (decomp : Compressor → List Nat → Option (List Nat))
    (sb : SuperBlock) (r : SquashfsReader) : Outcome (List Nat × SquashfsReader) :=
  if hlt : r.stream_position < sb.dir_table then
    match h : read_block decomp sb r with
    | .ok (bytes, r1) =>
      (SquashfsReader.inode_blocks decomp sb r1).bind fun (rest, r2) =>
        .ok (bytes ++ rest, r2)
    | .error e => .error e
    | .panic => .panic
    | .diverge => .diverge
  else .ok ([], r)
termination_by sb.dir_table + r.start - r.pos
decreasing_by
  obtain ⟨hp, hs⟩ := read_block_pos h
  unfold SquashfsReader.stream_position at hlt
  omega

/-- `SquashfsReader::inodes`: seek to the inode table, stream metadata blocks
until `dir_table`, then run the decode loop over the concatenation. Note the
function returns `Ok` with whatever the loop produced; only stream or
decompressor failures are errors. -/
def SquashfsReader.inodes (decomp : Compressor → List Nat → Option (List Nat))
    (sb : SuperBlock) (r : SquashfsReader) : Outcome (List Inode × SquashfsReader) :=
  (SquashfsReader.inode_blocks decomp sb (r.seek_from_start sb.inode_table)).bind
    fun (ret_bytes, r1) =>
      .ok (inode_parse_loop sb.block_size sb.block_log ret_bytes, r1)

/-- Whether a continuation byte of a multi-byte UTF-8 sequence is in range. -/
def utf8Cont (b : Nat) : Bool := decide (128 ≤ b ∧ b ≤ 191)

/-- UTF-8 validity of a byte list, as checked by Rust's `String::from_utf8`
(used by `Squashfs::symlink`): overlong encodings, surrogates and code points
above U+10FFFF are rejected. -/
def validUtf8 : List Nat → Bool
  | [] => true
  | b1 :: rest =>
    if b1 < 128 then validUtf8 rest
    else if 194 ≤ b1 ∧ b1 ≤ 223 then
      match rest with
      | b2 :: rest2 => utf8Cont b2 && validUtf8 rest2
      | [] => false
    else if b1 = 224 ∨ (225 ≤ b1 ∧ b1 ≤ 239) then
      match rest with
      | b2 :: b3 :: rest3 =>
        (if b1 = 224 then decide (160 ≤ b2 ∧ b2 ≤ 191)
         else if b1 = 237 then decide (128 ≤ b2 ∧ b2 ≤ 159)
         else utf8Cont b2) && utf8Cont b3 && validUtf8 rest3
      | _ => false
    else if 240 ≤ b1 ∧ b1 ≤ 244 then
      match rest with
      | b2 :: b3 :: b4 :: rest4 =>
        (if b1 = 240 then decide (144 ≤ b2 ∧ b2 ≤ 191)
         else if b1 = 244 then decide (128 ≤ b2 ∧ b2 ≤ 143)
         else utf8Cont b2) && utf8Cont b3 && utf8Cont b4 && validUtf8 rest4
      | _ => false
    else false

/-- The header record a `Node` carries
(`crate::filesystem::FilesystemHeader`): permissions, id indices and
modification time; produced from an inode header by the `.into()`
conversion. -/
structure NodeHeader where
  permissions : Nat
  uid : Nat
  gid : Nat
  mod_time : Nat
deriving DecidableEq, Repr

/-- The `From<InodeHeader>` conversion applied by the walker
(`header.into()`). -/
def headerInto (h : InodeHeader) : NodeHeader :=
  ⟨h.permissions, h.uid, h.gid, h.mod_time⟩

/-- `crate::filesystem::SquashfsDir`. -/
structure SquashfsDir where
  header : NodeHeader
deriving DecidableEq, Repr

/-- `crate::filesystem::SquashfsFileReader`. -/
structure SquashfsFileReader where
  header : NodeHeader
  basic : BasicFile
deriving DecidableEq, Repr

/-- `crate::filesystem::SquashfsSymlink`; `original` and `link` hold the
bytes of the Rust `String`s. -/
structure SquashfsSymlink where
  header : NodeHeader
  original : List Nat
  link : List Nat
deriving DecidableEq, Repr

/-- `crate::filesystem::SquashfsCharacterDevice`. -/
structure SquashfsCharacterDevice where
  header : NodeHeader
  device_number : Nat
deriving DecidableEq, Repr

/-- `crate::filesystem::SquashfsBlockDevice`. -/
structure SquashfsBlockDevice where
  header : NodeHeader
  device_number : Nat
deriving DecidableEq, Repr

/-- `crate::filesystem::InnerNode` for the read side. -/
inductive InnerNode where
  | dir : SquashfsDir → InnerNode
  | file : SquashfsFileReader → InnerNode
  | symlink : SquashfsSymlink → InnerNode
  | characterDevice : SquashfsCharacterDevice → InnerNode
  | blockDevice : SquashfsBlockDevice → InnerNode
deriving DecidableEq, Repr

/-- `crate::filesystem::Node`: an emitted tree node. The path is modelled as
the list of name components pushed below the root (`PathBuf::push` of
`entry.name()`, whose bytes are kept raw here). -/
structure Node where
  path : List (List Nat)
  inner : InnerNode
deriving DecidableEq, Repr

/-- The slice of `crate::squashfs::Squashfs` consulted by the walker: the
inode map (`HashMap<u32, Inode>`, modelled as an association list with unique
keys) and the directory-table blocks, each stored with its relative start
offset measured from `dir_table`. -/
structure Squashfs where
  inodes : List (Nat × Inode)
  dir_blocks : List (Nat × List Nat)
deriving DecidableEq, Repr

/-- `Squashfs::dir_from_index` (`squashfs.rs` lines 400-436): `Ok(None)` for
`file_size < 4`; otherwise keep every stored dir-table block whose recorded
offset satisfies `a >= block_index` (in stored order), concatenate their
bytes, and decode directory records from the slice
`&block[block_offset..][..file_size as usize - 3]`. An out-of-range slice is a
Rust panic; a record decode failure propagates as an error. -/
def Squashfs.dir_from_index (s : Squashfs) (block_index file_size block_offset : Nat) :
    Outcome (Option (List Dir)) :=
  if file_size < 4 then .ok Option.none
  else
    let block : List Nat :=
      ((s.dir_blocks.filter fun p => decide (block_index ≤ p.1)).map Prod.snd).flatten
    if block_offset ≤ block.length ∧ file_size - 3 ≤ block.length - block_offset then
      match decodeDirs ((block.drop block_offset).take (file_size - 3)) with
      | .ok dirs => .ok (some dirs)
      | .error e => .error e
    else .panic

/-- Modelled from the spec: the byte selection §4.7 prescribes for
`dir_from_index` — select all dir-table metadata blocks whose recorded start
offset is ≥ `block_index` (in stored order), concatenate them, advance
`block_offset` bytes, then take exactly `file_size − 3` bytes. -/
def spec_dir_bytes (s : Squashfs) (block_index file_size block_offset : Nat) : List Nat :=
  ((((s.dir_blocks.filter fun p => decide (block_index ≤ p.1)).map Prod.snd).flatten).drop
      block_offset).take (file_size - 3)

mutual

/-- `Squashfs::extract_dir` (`squashfs.rs` lines 467-574). The `fuel`
argument bounds the recursion depth of the model only: the source recurses
unconditionally into subdirectory inodes, keeps no visited set, and checks for
no cycle, so on self-referential directory structures it has no terminating
execution; the model returns `diverge` when `fuel` runs out. Entries are
processed in on-disk order; the computed key `(inode_num as i32 +
inode_offset as i32) as u32` is looked up in the inode map with the panicking
`Index` operator. -/
def Squashfs.extract_dir (fuel : Nat) (s : Squashfs) (dir_inode : Inode)
    (path : List (List Nat)) : Outcome (List Node) :=
  match fuel with
  | 0 => .diverge
  | fuel' + 1 =>
    match
      (match dir_inode.inner with
        | .basicDirectory basic_dir =>
          s.dir_from_index basic_dir.block_index basic_dir.file_size basic_dir.block_offset
        | .extendedDirectory ext_dir =>
          s.dir_from_index ext_dir.block_index ext_dir.file_size ext_dir.block_offset
        | _ => .panic) with
    | .ok (some dirs) =>
      Squashfs.extract_entries fuel' s
        ((dirs.map fun d => d.dir_entries.map fun e => (d.inode_num, e)).flatten) path
    | .ok Option.none => .ok []
    | .error e => .error e
    | .panic => .panic
    | .diverge => .diverge
termination_by (fuel, 0)

/-- The entry loop of `Squashfs::extract_dir` (the nested
`for d in &dirs { for entry in &d.dir_entries { ... } }`), flattened to the
list of `(header inode number, entry)` pairs in iteration order. Branches
follow the source `match entry.t`: directory entries push a node and recurse;
file, symlink and device entries push one node; symlink/device helpers return
`FileNotFound` when the inode body has the wrong variant, and
`String::from_utf8` failures propagate; any other entry type is a
`panic!`/`todo!`. -/
def Squashfs.extract_entries (fuel : Nat) (s : Squashfs)
    (entries : List (Nat × DirEntry)) (path : List (List Nat)) : Outcome (List Node) :=
  match entries with
  | [] => .ok []
  | (inode_num, entry) :: rest =>
    let inode_key : Nat := (((inode_num : Int) + entry.inode_offset) % 4294967296).toNat
    match s.inodes.lookup inode_key with
    | Option.none => .panic
    | some found_inode =>
      let new_path := path ++ [entry.name]
      (if entry.t = 1 ∨ entry.t = 8 then
          (Squashfs.extract_dir fuel s found_inode new_path).bind fun sub =>
            .ok (⟨new_path, .dir ⟨headerInto found_inode.header⟩⟩ :: sub)
        else if entry.t = 2 then
          match found_inode.inner with
          | .basicFile file =>
            .ok [⟨new_path, .file ⟨headerInto found_inode.header, file⟩⟩]
          | .extendedFile file =>
            .ok [⟨new_path, .file ⟨headerInto found_inode.header, file.toBasic⟩⟩]
          | _ => .panic
        else if entry.t = 3 then
          match found_inode.inner with
          | .basicSymlink basic_sym =>
            if validUtf8 entry.name && validUtf8 basic_sym.target_path then
              .ok [⟨new_path,
                .symlink ⟨headerInto found_inode.header, entry.name, basic_sym.target_path⟩⟩]
            else .error .utf8
          | _ => .error .fileNotFound
        else if entry.t = 5 then
          match found_inode.inner with
          | .basicCharacterDevice d =>
            .ok [⟨new_path, .characterDevice ⟨headerInto found_inode.header, d.device_number⟩⟩]
          | _ => .error .fileNotFound
        else if entry.t = 4 then
          match found_inode.inner with
          | .basicBlockDevice d =>
            .ok [⟨new_path, .blockDevice ⟨headerInto found_inode.header, d.device_number⟩⟩]
          | _ => .error .fileNotFound
        else .panic).bind fun ns =>
        (Squashfs.extract_entries fuel s rest path).bind fun more => .ok (ns ++ more)
termination_by (fuel, entries.length + 1)

end

theorem dir_from_index_eval {s : Squashfs} {block_index file_size block_offset : Nat}
    (h4 : 4 ≤ file_size)
    (hb : block_offset + (file_size - 3) ≤
      (((s.dir_blocks.filter fun p => decide (block_index ≤ p.1)).map Prod.snd).flatten).length) :
    s.dir_from_index block_index file_size block_offset =
      match decodeDirs (spec_dir_bytes s block_index file_size block_offset) with
      | .ok dirs => .ok (some dirs)
      | .error e => .error e := by
  simp only [Squashfs.dir_from_index, spec_dir_bytes]
  rw [if_neg (by omega)]
  rw [if_pos (And.intro (by omega) (by omega))]

/-- A decompressor that always fails; the concrete images below frame every
metadata block uncompressed, so it is never consulted. -/
def decomp0 : Compressor → List Nat → Option (List Nat) := fun _ _ => Option.none

/-- The single directory entry of the forged-cycle image: offset 0,
inode_offset 0, type 1 (BasicDirectory), name `"a"`. -/
def c1_entry : DirEntry := ⟨0, 0, 1, 0, [97]⟩

/-- The decoded directory listing of the forged-cycle image: one header with
base inode number 1 whose single entry resolves back to inode 1. -/
def c1_dir : Dir := ⟨0, 0, 1, [c1_entry]⟩

/-- The on-disk bytes of `c1_dir`: header `{count=0, start=0, inode_number=1}`
then the entry `{offset=0, inode_offset=0, type=1, name_size=0, name="a"}`. -/
def c1_dir_bytes : List Nat :=
  [0, 0, 0, 0, 0, 0, 0, 0, 1, 0, 0, 0, 0, 0, 0, 0, 1, 0, 0, 0, 97]

/-- The root inode (number 1) of the forged-cycle image: a basic directory at
`(block_index 0, block_offset 0)` with `file_size` 24 = 3 + 21 listing
bytes. -/
def c1_root : Inode := ⟨⟨493, 0, 0, 0, 1⟩, .basicDirectory ⟨0, 24, 0, 0⟩⟩

/-- A forged-cycle archive: the root directory's only entry is a directory
entry that resolves to the root inode itself. -/
def c1_squashfs : Squashfs := ⟨[(1, c1_root)], [(0, c1_dir_bytes)]⟩

theorem c1_dirs_eval : decodeDirs c1_dir_bytes = .ok [c1_dir] := by
  rw [decodeDirs_cons (by decide)
    (show decodeDir c1_dir_bytes = some (c1_dir, []) from by decide), decodeDirs_nil]

theorem c1_dfi : c1_squashfs.dir_from_index 0 24 0 = .ok (some [c1_dir]) := by
  rw [dir_from_index_eval (by decide) (by decide)]
  rw [show spec_dir_bytes c1_squashfs 0 24 0 = c1_dir_bytes from by decide]
  rw [c1_dirs_eval]

/-- The single directory entry of the dangling-reference image: inode_offset 1
against header base 1, so it references inode number 2, which the inode table
does not contain. -/
def c8_entry : DirEntry := ⟨0, 1, 2, 0, [98]⟩

/-- The decoded directory listing of the dangling-reference image. -/
def c8_dir : Dir := ⟨0, 0, 1, [c8_entry]⟩

/-- The on-disk bytes of `c8_dir`. -/
def c8_dir_bytes : List Nat :=
  [0, 0, 0, 0, 0, 0, 0, 0, 1, 0, 0, 0, 0, 0, 1, 0, 2, 0, 0, 0, 98]

/-- The root inode of the dangling-reference image. -/
def c8_root : Inode := ⟨⟨493, 0, 0, 0, 1⟩, .basicDirectory ⟨0, 24, 0, 0⟩⟩

/-- An archive whose root directory entry references an inode number (2) that
is absent from the inode map. -/
def c8_squashfs : Squashfs := ⟨[(1, c8_root)], [(0, c8_dir_bytes)]⟩

theorem c8_dirs_eval : decodeDirs c8_dir_bytes = .ok [c8_dir] := by
  rw [decodeDirs_cons (by decide)
    (show decodeDir c8_dir_bytes = some (c8_dir, []) from by decide), decodeDirs_nil]

theorem c8_dfi : c8_squashfs.dir_from_index 0 24 0 = .ok (some [c8_dir]) := by
  rw [dir_from_index_eval (by decide) (by decide)]
  rw [show spec_dir_bytes c8_squashfs 0 24 0 = c8_dir_bytes from by decide]
  rw [c8_dirs_eval]

/-- A well-formed directory image for the C2 witness: the same 21-byte listing
shape as `c1_dir_bytes`, stored as the only dir-table block. -/
def c2_squashfs : Squashfs :=
  ⟨[], [(0, [0, 0, 0, 0, 0, 0, 0, 0, 1, 0, 0, 0, 0, 0, 0, 0, 1, 0, 0, 0, 97])]⟩

/-- A 96-byte superblock whose magic and version are valid but whose
`block_log` (13) disagrees with `log2 block_size` (`block_size` = 4096, so
12): bytes 12-15 are the little-endian block size, bytes 22-23 the block
log. -/
def c3_superblock_bytes : List Nat :=
  [104, 115, 113, 115,
   0, 0, 0, 0,
   0, 0, 0, 0,
   0, 16, 0, 0,
   0, 0, 0, 0,
   0, 0,
   13, 0,
   0, 0,
   0, 0,
   4, 0,
   0, 0,
   0, 0, 0, 0, 0, 0, 0, 0,
   0, 0, 0, 0, 0, 0, 0, 0,
   0, 0, 0, 0, 0, 0, 0, 0,
   0, 0, 0, 0, 0, 0, 0, 0,
   0, 0, 0, 0, 0, 0, 0, 0,
   0, 0, 0, 0, 0, 0, 0, 0,
   0, 0, 0, 0, 0, 0, 0, 0,
   0, 0, 0, 0, 0, 0, 0, 0]

/-- The superblock value the parser produces from `c3_superblock_bytes`. -/
def c3_superblock : SuperBlock :=
  { magic := [104, 115, 113, 115], inode_count := 0, mod_time := 0,
    block_size := 4096, frag_count := 0, compressor := .none, block_log := 13,
    flags := 0, id_count := 0, version_major := 4, version_minor := 0,
    root_inode := 0, bytes_used := 0, id_table := 0, xattr_table := 0,
    inode_table := 0, dir_table := 0, frag_table := 0, export_table := 0 }

/-- Stream for the C4 run: an uncompressed metadata block at offset 0 (header
`0x8008`, payload one 8-byte export entry with value 1), padding, and at
offset 100 the table's 8 pointer bytes `[0,0,0,0,1,0,0,0]`, i.e. the u64
value 2^32 whose low 4 bytes are zero. -/
def c4_io : List Nat :=
  [8, 128, 1, 0, 0, 0, 0, 0, 0, 0] ++ List.replicate 90 0 ++ [0, 0, 0, 0, 1, 0, 0, 0]

/-- Superblock for the C4 run; only the compressor tag is consulted (and the
block read is uncompressed, so not even that reaches the codec). -/
def c4_superblock : SuperBlock :=
  { magic := [104, 115, 113, 115], inode_count := 0, mod_time := 0,
    block_size := 4096, frag_count := 0, compressor := .none, block_log := 12,
    flags := 0, id_count := 0, version_major := 4, version_minor := 0,
    root_inode := 0, bytes_used := 108, id_table := 0, xattr_table := 0,
    inode_table := 0, dir_table := 0, frag_table := 0, export_table := 100 }

/-- The reader positioned at the start of `c4_io`. -/
def c4_reader : SquashfsReader := ⟨c4_io, 0, 0, []⟩

/-- The reader state after the C4 `lookup_table` run: the logged events show
the seek to the table pointer at 100, the FOUR-byte pointer read, and then a
seek to target 0 — the u32 truncation of the stored u64 pointer 2^32. -/
def c4_reader_out : SquashfsReader :=
  ⟨c4_io, 0, 10, [.seek 100, .read 4, .seek 0, .read 2, .read 8]⟩

/-- Superblock with 1025 inodes and the NFS-export flag set, for the C5
block-count computation. -/
def c5_superblock : SuperBlock :=
  { magic := [104, 115, 113, 115], inode_count := 1025, mod_time := 0,
    block_size := 131072, frag_count := 0, compressor := .none, block_log := 17,
    flags := 128, id_count := 1, version_major := 4, version_minor := 0,
    root_inode := 0, bytes_used := 0, id_table := 0, xattr_table := 0,
    inode_table := 0, dir_table := 0, frag_table := 0, export_table := 96 }

/-- Superblock with a non-empty id table (`id_count` = 1) but with flags 0, so
bit 7 (NFSExportTableExists) is clear. -/
def c6_superblock : SuperBlock :=
  { magic := [104, 115, 113, 115], inode_count := 1, mod_time := 0,
    block_size := 4096, frag_count := 0, compressor := .none, block_log := 12,
    flags := 0, id_count := 1, version_major := 4, version_minor := 0,
    root_inode := 0, bytes_used := 0, id_table := 200, xattr_table := 0,
    inode_table := 0, dir_table := 0, frag_table := 0, export_table := 0 }

/-- An idle reader for runs that must not touch the stream. -/
def c6_reader : SquashfsReader := ⟨[], 0, 0, []⟩

/-- A complete 28-byte basic-directory inode record: type 1, permissions
0o755, inode number 1, then `{block_index=0, file_size=3, block_offset=0,
parent_inode=1}`. -/
def c7_inode_bytes : List Nat :=
  [1, 0, 237, 1, 0, 0, 0, 0, 0, 0, 0, 0, 1, 0, 0, 0,
   0, 0, 0, 0, 3, 0, 0, 0, 1, 0, 0, 0]

/-- The inode decoded from `c7_inode_bytes`. -/
def c7_inode : Inode := ⟨⟨493, 0, 0, 0, 1⟩, .basicDirectory ⟨0, 3, 0, 1⟩⟩

/-- Superblock with one fragment-table entry, for the C9 witness's gating
check (`frag_count` = 0 side uses `c9_superblock_empty`). -/
def c9_superblock_empty : SuperBlock :=
  { magic := [104, 115, 113, 115], inode_count := 1, mod_time := 0,
    block_size := 4096, frag_count := 0, compressor := .none, block_log := 12,
    flags := 0, id_count := 0, version_major := 4, version_minor := 0,
    root_inode := 0, bytes_used := 0, id_table := 0, xattr_table := 0,
    inode_table := 0, dir_table := 0, frag_table := 300, export_table := 0 }

/-- An idle reader for the C9 witness. -/
def c9_reader : SquashfsReader := ⟨[], 0, 0, []⟩

/-- C1: the claim says the walker detects a revisited directory inode and
fails with CyclicDirectory. On the forged-cycle image `c1_squashfs` —
reachable from the root, whose only entry resolves back to the root inode —
`Squashfs::extract_dir` instead recurses forever: for every recursion-depth
bound the model returns `diverge`, and in particular no CyclicDirectory error
is ever produced. -/
theorem c1_forged_cycle_walker_diverges (fuel : Nat) (path : List (List Nat)) :
    Squashfs.extract_dir fuel c1_squashfs c1_root path = .diverge := by
  induction fuel generalizing path with
  | zero => rw [Squashfs.extract_dir.eq_def]
  | succ n ih =>
    have step1 : Squashfs.extract_dir (n + 1) c1_squashfs c1_root path =
        match c1_squashfs.dir_from_index 0 24 0 with
        | .ok (some dirs) =>
          Squashfs.extract_entries n c1_squashfs
            ((dirs.map fun d => d.dir_entries.map fun e => (d.inode_num, e)).flatten) path
        | .ok Option.none => .ok []
        | .error e => .error e
        | .panic => .panic
        | .diverge => .diverge := by
      rw [Squashfs.extract_dir.eq_def]
      rfl
    rw [step1, c1_dfi]
    show Squashfs.extract_entries n c1_squashfs [(1, c1_entry)] path = .diverge
    have step2 : Squashfs.extract_entries n c1_squashfs [(1, c1_entry)] path =
        ((Squashfs.extract_dir n c1_squashfs c1_root (path ++ [[97]])).bind fun sub =>
            Outcome.ok (⟨path ++ [[97]], .dir ⟨headerInto c1_root.header⟩⟩ :: sub)).bind
          fun ns =>
            (Squashfs.extract_entries n c1_squashfs [] path).bind fun more =>
              Outcome.ok (ns ++ more) := by
      rw [Squashfs.extract_entries.eq_def]
      rfl
    rw [step2, ih (path ++ [[97]])]
    rfl

/-- C2: for every directory inode with `file_size ≥ 4` whose listing slice is
in bounds, `dir_from_index` forms the concatenation of exactly the stored
dir-table blocks whose recorded relative start offset is ≥ `block_index`, in
stored order, skips `block_offset` bytes, and decodes directory records from
exactly the next `file_size − 3` bytes of that concatenation, returning the
decoded directory headers and entries. -/
theorem c2_dir_from_index_matches_spec_selection
    (s : Squashfs) (block_index file_size block_offset : Nat)
    (h4 : 4 ≤ file_size)
    (hb : block_offset + (file_size - 3) ≤
      (((s.dir_blocks.filter fun p => decide (block_index ≤ p.1)).map
        Prod.snd).flatten).length) :
    s.dir_from_index block_index file_size block_offset =
      match decodeDirs (spec_dir_bytes s block_index file_size block_offset) with
      | .ok dirs => .ok (some dirs)
      | .error e => .error e :=
  dir_from_index_eval h4 hb

theorem c2_dir_from_index_matches_spec_selection_witness :
    c2_squashfs.dir_from_index 0 24 0 =
      match decodeDirs (spec_dir_bytes c2_squashfs 0 24 0) with
      | .ok dirs => .ok (some dirs)
      | .error e => .error e :=
  c2_dir_from_index_matches_spec_selection c2_squashfs 0 24 0 (by decide) (by decide)

/-- C3: the claim says superblock parsing rejects (among others) any input
whose `block_log` differs from `log2 block_size` with InconsistentBlockSize.
The deku-derived parser validates only magic and version: on the 96-byte input
with valid magic and version but `block_size` = 4096 and `block_log` = 13 it
succeeds, producing a superblock that violates the spec's block-size
invariant. -/
theorem c3_superblock_accepts_inconsistent_block_log :
    superBlockFromBytes c3_superblock_bytes = .ok c3_superblock ∧
    c3_superblock.block_size = 4096 ∧ c3_superblock.block_log = 13 ∧
    spec_block_size_valid c3_superblock = false :=
  ⟨rfl, rfl, rfl, rfl⟩

/-- C4: the claim says the lookup-table parser reads a single u64 (8-byte)
little-endian indirection pointer and seeks to the full 64-bit target. The
source reads FOUR bytes into a u32: on a stream whose stored pointer is the
u64 value 2^32 (low four bytes zero), `lookup_table` seeks to target 0 — the
event log records `read 4` then `seek 0` — although the spec-side u64 read of
the same eight bytes yields 4294967296. -/
theorem c4_lookup_table_reads_u32_pointer :
    SquashfsReader.lookup_table decomp0 decodeExport decodeExport_length
      c4_superblock 100 8 c4_reader = .ok ([⟨1⟩], c4_reader_out) ∧
    spec_indirection_ptr ((c4_io.drop 100).take 8) = some (4294967296, []) ∧
    leVal ((c4_io.drop 100).take 4) = 0 := by
  refine ⟨?_, by decide, by decide⟩
  have hdm : decodeMany decodeExport decodeExport_length [1, 0, 0, 0, 0, 0, 0, 0] = [⟨1⟩] := by
    rw [decodeMany_step
      (show decodeExport [1, 0, 0, 0, 0, 0, 0, 0] = some (⟨1⟩, []) from rfl)]
    rw [decodeMany_stop (show decodeExport ([] : List Nat) = Option.none from rfl)]
  show (Outcome.ok
      (decodeMany decodeExport decodeExport_length [1, 0, 0, 0, 0, 0, 0, 0], c4_reader_out)
    : Outcome (List Export × SquashfsReader)) = .ok ([⟨1⟩], c4_reader_out)
  rw [hdm]

/-- C5: the claim says the export table fetches `⌈(inode_count × 8) / 8192⌉`
metadata blocks. The source instead divides twice: `export` passes
`⌈inode_count / 1024⌉` as the `size` argument, and `lookup_table` divides that
by 8192 again. At `inode_count` = 1025 the code fetches 1 block where the
spec-side count is 2. -/
theorem c5_export_block_count_mismatch :
    lookup_block_count (export_lookup_size c5_superblock) = 1 ∧
    spec_lookup_block_count c5_superblock.inode_count 8 = 2 ∧
    c5_superblock.inode_count = 1025 :=
  ⟨rfl, rfl, rfl⟩

/-- C6: the claim (following the spec's mandate) says the id table is read
whenever `id_count > 0` regardless of the NFSExportTableExists flag. The
source gates `SquashfsReader::id` on flag bit 7: with `id_count` = 1 and
flags 0 it returns `None` without touching the stream. -/
theorem c6_id_table_skipped_without_nfs_flag :
    SquashfsReader.id decomp0 c6_superblock c6_reader = .ok (Option.none, c6_reader) ∧
    c6_superblock.id_count = 1 ∧ c6_superblock.flags = 0 :=
  ⟨rfl, rfl, rfl⟩

/-- C7: the claim says a trailing partial inode record makes the inode-table
parser fail with CorruptInodeTable. The source's decode loop instead `break`s
on the first decode failure and the function returns `Ok` with the inodes
decoded so far: on a buffer holding one complete basic-directory inode
followed by a stray byte, the loop succeeds with that single inode even
though the stray byte does not decode. -/
theorem c7_inode_table_partial_record_accepted :
    inode_parse_loop 4096 12 (c7_inode_bytes ++ [0]) = [c7_inode] ∧
    decodeInode 4096 12 [0] = Option.none := by
  constructor
  · rw [inode_parse_loop_cons (by decide)
      (show decodeInode 4096 12 (c7_inode_bytes ++ [0]) = some (c7_inode, [0]) from by decide)]
    rw [inode_parse_loop_stop (show decodeInode 4096 12 [0] = Option.none from by decide)]
  · decide

/-- C8: the claim says a directory entry whose computed inode number has no
inode in the table makes the walk fail with a DanglingInodeReference error
rather than panic. On `c8_squashfs`, whose root entry resolves to the absent
inode number 2, `extract_dir` hits the panicking `HashMap` `Index` operator:
the model returns the panic outcome, not an error. -/
theorem c8_dangling_inode_reference_panics :
    Squashfs.extract_dir 2 c8_squashfs c8_root [] = .panic := by
  have step1 : Squashfs.extract_dir 2 c8_squashfs c8_root [] =
      match c8_squashfs.dir_from_index 0 24 0 with
      | .ok (some dirs) =>
        Squashfs.extract_entries 1 c8_squashfs
          ((dirs.map fun d => d.dir_entries.map fun e => (d.inode_num, e)).flatten) []
      | .ok Option.none => .ok []
      | .error e => .error e
      | .panic => .panic
      | .diverge => .diverge := by
    rw [Squashfs.extract_dir.eq_def]
    rfl
  rw [step1, c8_dfi]
  show Squashfs.extract_entries 1 c8_squashfs [(1, c8_entry)] [] = .panic
  rw [Squashfs.extract_entries.eq_def]
  rfl

/-- C9: `fragments` returns `None` exactly when `frag_count` = 0, leaving the
reader untouched (no stream accesses) in that case; when it returns `Some`
the entries are exactly the ones decoded by the fragment lookup table. -/
theorem c9_fragments_none_iff_zero_count
    (decomp : Compressor → List Nat → Option (List Nat)) (sb : SuperBlock)
    (r r' : SquashfsReader) (res : Option (List Fragment))
    (h : SquashfsReader.fragments decomp sb r = .ok (res, r')) :
    (res = Option.none ↔ sb.frag_count = 0) ∧
    (sb.frag_count = 0 → r' = r) ∧
    (∀ es, res = some es →
      SquashfsReader.lookup_table decomp decodeFragment decodeFragment_length sb
        sb.frag_table (sb.frag_count * 16) r = .ok (es, r')) := by
  unfold SquashfsReader.fragments at h
  by_cases hf : sb.frag_count = 0
  · rw [if_pos hf] at h
    have h' := Outcome.ok.inj h
    have hres : Option.none = res := congrArg Prod.fst h'
    have hr : r = r' := congrArg Prod.snd h'
    refine ⟨?_, fun _ => hr.symm, ?_⟩
    · rw [← hres]
      simp [hf]
    · intro es hes
      rw [← hres] at hes
      exact Option.noConfusion hes
  · rw [if_neg hf] at h
    obtain ⟨⟨fragment, r1⟩, hl, h2⟩ := Outcome.bind_eq_ok h
    have h' := Outcome.ok.inj h2
    have hres : some fragment = res := congrArg Prod.fst h'
    have hr1 : r1 = r' := congrArg Prod.snd h'
    refine ⟨?_, fun hc => absurd hc hf, ?_⟩
    · rw [← hres]
      simp [hf]
    · intro es hes
      rw [← hres] at hes
      have hfe : fragment = es := Option.some.inj hes
      rw [← hfe, ← hr1]
      exact hl

theorem c9_fragments_none_iff_zero_count_witness :
    ((Option.none : Option (List Fragment)) = Option.none ↔
      c9_superblock_empty.frag_count = 0) ∧
    (c9_superblock_empty.frag_count = 0 → c9_reader = c9_reader) ∧
    (∀ es, (Option.none : Option (List Fragment)) = some es →
      SquashfsReader.lookup_table decomp0 decodeFragment decodeFragment_length
        c9_superblock_empty c9_superblock_empty.frag_table
        (c9_superblock_empty.frag_count * 16) c9_reader = .ok (es, c9_reader)) :=
  c9_fragments_none_iff_zero_count decomp0 c9_superblock_empty c9_reader c9_reader
    Option.none rfl

/-- C10: for every directory inode with `file_size < 4` (including the
empty-directory encoding `file_size = 3`), `dir_from_index` returns `Ok(None)`
without touching the directory-table bytes, and the walker therefore emits no
child node for such a directory. -/
theorem c10_small_file_size_empty_dir
    (s : Squashfs) (bd : BasicDirectory) (hdr : InodeHeader)
    (path : List (List Nat)) (fuel : Nat) (h : bd.file_size < 4) :
    s.dir_from_index bd.block_index bd.file_size bd.block_offset = .ok Option.none ∧
    Squashfs.extract_dir (fuel + 1) s ⟨hdr, .basicDirectory bd⟩ path = .ok [] := by
  have hdfi : s.dir_from_index bd.block_index bd.file_size bd.block_offset
      = .ok Option.none := by
    unfold Squashfs.dir_from_index
    rw [if_pos h]
  refine ⟨hdfi, ?_⟩
  have step1 : Squashfs.extract_dir (fuel + 1) s ⟨hdr, .basicDirectory bd⟩ path =
      match s.dir_from_index bd.block_index bd.file_size bd.block_offset with
      | .ok (some dirs) =>
        Squashfs.extract_entries fuel s
          ((dirs.map fun d => d.dir_entries.map fun e => (d.inode_num, e)).flatten) path
      | .ok Option.none => .ok []
      | .error e => .error e
      | .panic => .panic
      | .diverge => .diverge := by
    rw [Squashfs.extract_dir.eq_def]
  rw [step1, hdfi]

theorem c10_small_file_size_empty_dir_witness :
    (⟨[], []⟩ : Squashfs).dir_from_index 0 3 0 = .ok Option.none ∧
    Squashfs.extract_dir 1 ⟨[], []⟩ ⟨⟨0, 0, 0, 0, 0⟩, .basicDirectory ⟨0, 3, 0, 0⟩⟩ []
      = .ok [] :=
  c10_small_file_size_empty_dir ⟨[], []⟩ ⟨0, 3, 0, 0⟩ ⟨0, 0, 0, 0, 0⟩ [] 0 (by decide)

end Backhand
